import Mathlib

/-!
Verification development for the KLT (Karhunen-Loève Transform) engine
(`src/klt.hh`, `src/klt.cc`).

Shallow embedding conventions:
* `float` / `std::complex<float>` values are modelled as exact rationals
  (`ℚ`) and pairs of rationals (`Cplx`); overflow and rounding are out of
  scope of the claims treated here.
* C buffers (raw pointers) are modelled as total functions `ℕ → _`;
  every operation only reads and writes the index ranges the C code
  touches, and all theorems are stated on those ranges.
* The four LAPACK routines the engine delegates to (`LAPACKE_chptrd`,
  `LAPACKE_sstebz`, `LAPACKE_cstein`, `LAPACKE_cupmtr`) are external to
  the repository.  They are modelled as an abstract `Eigensolver`
  record of deterministic functions; each call site passes exactly the
  buffer regions the C prototype lets the routine read (modelled by
  restricting the buffer to that region) and merges the routine's
  outputs into exactly the regions the prototype lets it write.
* The shipped configuration has `KLT_SUPPORT_WIN = 0` and
  `KLT_SUPPORT_EVALN = 0` (`klt.hh`), so the windowing code does not
  exist in the compiled program and the constructor takes only
  `in_len`, `acm_order`, `num_eig`.  The eigenvalue-normalization block
  (klt.cc lines 275-287) is additionally embedded in a separate
  `transform_evaln` variant, faithful to what the code compiles to when
  `KLT_SUPPORT_EVALN = 1`.
-/

/-- Complex single-precision values, modelled as pairs of rationals. -/
abbrev Cplx : Type := ℚ × ℚ

/-- Complex multiplication on `Cplx`. -/
def cmul (x y : Cplx) : Cplx :=
  (x.1 * y.1 - x.2 * y.2, x.1 * y.2 + x.2 * y.1)

/-- Complex conjugation (`std::conj`). -/
def cconj (x : Cplx) : Cplx := (x.1, -x.2)

/-- Overwrite the first `k` entries of buffer `g` with those of `f`
(the effect of a routine writing a length-`k` output region into a
reused buffer). -/
def over {α : Type} (k : ℕ) (f g : ℕ → α) : ℕ → α :=
  fun i => if i < k then f i else g i

/-- Restrict a buffer to its first `k` entries (what a callee receiving
a pointer to a length-`k` region may read). -/
def restr {α : Type} [Zero α] (k : ℕ) (f : ℕ → α) : ℕ → α :=
  fun i => if i < k then f i else 0

/-- Immutable engine configuration: the three constructor parameters of
the shipped build (`in_len`, `acm_order`, `num_eig`; the `window` and
`eval_normalized` parameters are compiled out by `KLT_SUPPORT_WIN = 0`
and `KLT_SUPPORT_EVALN = 0`). -/
structure Config where
  in_len : ℕ
  acm_order : ℕ
  num_eig : ℕ
deriving DecidableEq

/-- Size of the packed lower-triangular storage
(`ac_size = ((acm_order + 1) * acm_order) / 2` in the constructor). -/
def packedSize (n : ℕ) : ℕ := ((n + 1) * n) / 2

/-- The mutable buffer state of one `KLT` instance (the pointer members
of class `KLT`). -/
structure KLTState where
  in_buf : ℕ → Cplx
  ac_buf : ℕ → Cplx
  eval_buf : ℕ → ℚ
  kltc_buf : ℕ → Cplx
  kltb_buf : ℕ → Cplx
  d_buf : ℕ → ℚ
  e_buf : ℕ → ℚ
  tau_buf : ℕ → Cplx
  ib_buf : ℕ → ℕ
  is_buf : ℕ → ℕ
  if_buf : ℕ → ℕ

/-- Lag-`a` biased autocorrelation accumulation of `KLT::acorr_matrix`
(klt.cc lines 309-315): starting from `0`, accumulate
`in_buf[w2idx + aidx] * conj(in_buf[w2idx])` for
`w2idx < in_len - aidx`. -/
def acorr (in_len : ℕ) (inb : ℕ → Cplx) (aidx : ℕ) : Cplx :=
  (List.range (in_len - aidx)).foldl
    (fun acc w2idx => acc + cmul (inb (w2idx + aidx)) (cconj (inb w2idx))) 0

/-- Pointwise buffer write (`buf[i] = v`). -/
def writeAt {α : Type} (f : ℕ → α) (i : ℕ) (v : α) : ℕ → α :=
  fun p => if p = i then v else f p

/-- Inner copy loop of the Toeplitz packing (klt.cc lines 326-328):
iteration `aiidx = k` executes `ac_buf[aoidx + k] = ac_buf[aiidx]`,
reading the buffer as it stands after the previous writes. -/
def copyRun (ac : ℕ → Cplx) (aoidx : ℕ) : ℕ → (ℕ → Cplx)
  | 0 => ac
  | k + 1 => writeAt (copyRun ac aoidx k) (aoidx + k) (copyRun ac aoidx k k)

/-- Outer packing loop of `KLT::acorr_matrix` (klt.cc lines 324-329):
for `col_len` descending from `acm_order - 1` to `1`, copy
`ac_buf[0..col_len)` to the next `col_len` output positions. -/
def packCols : (ℕ → Cplx) → ℕ → ℕ → (ℕ → Cplx)
  | ac, _, 0 => ac
  | ac, aoidx, col_len + 1 =>
      packCols (copyRun ac aoidx (col_len + 1)) (aoidx + (col_len + 1)) col_len

/-- `KLT::acorr_matrix` (klt.cc lines 307-330): fill `ac_buf[0..acm_order)`
with the lag autocorrelations of `in_buf`, then replicate them into the
remaining packed lower-triangular columns. -/
def acorr_matrix (cfg : Config) (s : KLTState) : KLTState :=
  let ac1 : ℕ → Cplx := fun aidx =>
    if aidx < cfg.acm_order then acorr cfg.in_len s.in_buf aidx else s.ac_buf aidx
  { s with ac_buf := packCols ac1 cfg.acm_order (cfg.acm_order - 1) }

/-- Start offset of packed column `c` in lower-triangular column-major
packed storage of an order-`n` matrix (column `c` holds the entries
`(c,c)..(n-1,c)` and has length `n - c`). -/
def colOff (n : ℕ) : ℕ → ℕ
  | 0 => 0
  | c + 1 => colOff n c + (n - c)

/-- Offset of the `j`-th copied segment (0-indexed) inside the packing
loop's output region, when the first copied column has length `cl`. -/
def segOff (cl : ℕ) : ℕ → ℕ
  | 0 => 0
  | j + 1 => segOff cl j + (cl - j)

/-- Total number of entries written by the packing loop when the first
copied column has length `cl` (lengths `cl, cl - 1, ..., 1`). -/
def totalLen : ℕ → ℕ
  | 0 => 0
  | cl + 1 => (cl + 1) + totalLen cl

/-- Result of the tridiagonal reduction `LAPACKE_chptrd`: overwritten
packed matrix (reflector data), diagonal, off-diagonal, reflector
scalars, and status code. -/
structure ChptrdResult where
  ap : ℕ → Cplx
  d : ℕ → ℚ
  e : ℕ → ℚ
  tau : ℕ → Cplx
  info : ℤ

/-- Result of the selective bisection eigenvalue search `LAPACKE_sstebz`:
count of eigenvalues found, number of diagonal blocks, eigenvalues,
block indices, block split points, and status code. -/
structure SstebzResult where
  m : ℕ
  nsplit : ℕ
  w : ℕ → ℚ
  iblock : ℕ → ℕ
  isplit : ℕ → ℕ
  info : ℤ

/-- Result of the inverse-iteration eigenvector routine `LAPACKE_cstein`:
the `m` computed eigenvector columns, failure indices, and status. -/
structure CsteinResult where
  z : ℕ → Cplx
  ifail : ℕ → ℕ
  info : ℤ

/-- Result of the back-transformation `LAPACKE_cupmtr`: the overwritten
column block and status. -/
structure CupmtrResult where
  c : ℕ → Cplx
  info : ℤ

/-- Abstract external eigensolver library: the four deterministic
primitives `KLT::eigendecomp` delegates to.  Argument conventions match
the call sites in klt.cc (fixed flags `LAPACK_COL_MAJOR`, `uplo = 'L'`,
`range = 'I'`, `order = 'B'`, `vl = vu = abstol = 0`, `side = 'L'`,
`trans = 'N'` are baked in). -/
structure Eigensolver where
  chptrd : ℕ → (ℕ → Cplx) → ChptrdResult
  sstebz : ℕ → ℕ → ℕ → (ℕ → ℚ) → (ℕ → ℚ) → SstebzResult
  cstein : ℕ → (ℕ → ℚ) → (ℕ → ℚ) → ℕ → (ℕ → ℚ) → (ℕ → ℕ) → (ℕ → ℕ) → CsteinResult
  cupmtr : ℕ → ℕ → (ℕ → Cplx) → (ℕ → Cplx) → (ℕ → Cplx) → CupmtrResult

/-- LAPACK contract of `sstebz` with `range = 'I'`: on successful exit
(`info = 0`) the number of eigenvalues found is exactly the size
`iu - il + 1` of the requested index range (fewer are found only with
`info = 2`, an error exit). -/
def SstebzConforming (sv : Eigensolver) : Prop :=
  ∀ n il iu d e, (sv.sstebz n il iu d e).info = 0 →
    (sv.sstebz n il iu d e).m = iu + 1 - il

/-- Lower index `il = acm_order - num_eig + 1` of the eigenvalue index
range requested from `sstebz` (klt.cc line 360). -/
def stebz_il (cfg : Config) : ℕ := cfg.acm_order - cfg.num_eig + 1

/-- Upper index `iu = acm_order` of the eigenvalue index range requested
from `sstebz` (klt.cc line 361). -/
def stebz_iu (cfg : Config) : ℕ := cfg.acm_order

/-- The `LAPACKE_chptrd` call of `KLT::eigendecomp` (klt.cc lines
344-347): the routine receives the packed `ac_buf`. -/
def chptrdRes (sv : Eigensolver) (cfg : Config) (s : KLTState) : ChptrdResult :=
  sv.chptrd cfg.acm_order (restr (packedSize cfg.acm_order) s.ac_buf)

/-- Buffer state after the `chptrd` call: `ac_buf` is destructively
overwritten with reflector data, and `d_buf`, `e_buf`, `tau_buf`
receive the tridiagonal form. -/
def afterChptrd (sv : Eigensolver) (cfg : Config) (s : KLTState) : KLTState :=
  let r := chptrdRes sv cfg s
  { s with ac_buf := over (packedSize cfg.acm_order) r.ap s.ac_buf,
           d_buf := over cfg.acm_order r.d s.d_buf,
           e_buf := over (cfg.acm_order - 1) r.e s.e_buf,
           tau_buf := over (cfg.acm_order - 1) r.tau s.tau_buf }

/-- The `LAPACKE_sstebz` call (klt.cc lines 364-366), with the index
range `il = acm_order - num_eig + 1`, `iu = acm_order`. -/
def sstebzRes (sv : Eigensolver) (cfg : Config) (s : KLTState) : SstebzResult :=
  let t := afterChptrd sv cfg s
  sv.sstebz cfg.acm_order (stebz_il cfg) (stebz_iu cfg)
    (restr cfg.acm_order t.d_buf) (restr (cfg.acm_order - 1) t.e_buf)

/-- Buffer state after the `sstebz` call: `eval_buf` receives the `m`
found eigenvalues, `ib_buf` their block indices, `is_buf` the `nsplit`
split points. -/
def afterSstebz (sv : Eigensolver) (cfg : Config) (s : KLTState) : KLTState :=
  let t := afterChptrd sv cfg s
  let r := sstebzRes sv cfg s
  { t with eval_buf := over r.m r.w t.eval_buf,
           ib_buf := over r.m r.iblock t.ib_buf,
           is_buf := over r.nsplit r.isplit t.is_buf }

/-- The `LAPACKE_cstein` call (klt.cc lines 382-385): note it is passed
`num_eig_found` (the count reported by `sstebz`), not `num_eig`. -/
def csteinRes (sv : Eigensolver) (cfg : Config) (s : KLTState) : CsteinResult :=
  let t := afterSstebz sv cfg s
  let r := sstebzRes sv cfg s
  sv.cstein cfg.acm_order (restr cfg.acm_order t.d_buf)
    (restr (cfg.acm_order - 1) t.e_buf) r.m
    (restr r.m t.eval_buf) (restr r.m t.ib_buf) (restr r.nsplit t.is_buf)

/-- Buffer state after the `cstein` call: `kltb_buf` receives the
`num_eig_found` eigenvector columns (in the tridiagonal basis), each of
height `ldz = acm_order`; columns beyond `num_eig_found` are untouched. -/
def afterCstein (sv : Eigensolver) (cfg : Config) (s : KLTState) : KLTState :=
  let t := afterSstebz sv cfg s
  let r := csteinRes sv cfg s
  let m := (sstebzRes sv cfg s).m
  { t with kltb_buf := over (m * cfg.acm_order) r.z t.kltb_buf,
           if_buf := over m r.ifail t.if_buf }

/-- The `LAPACKE_cupmtr` call (klt.cc lines 395-399): back-transforms
the `num_eig_found` columns of `kltb_buf` by the reflectors stored in
`ac_buf` and `tau_buf`. -/
def cupmtrRes (sv : Eigensolver) (cfg : Config) (s : KLTState) : CupmtrResult :=
  let t := afterCstein sv cfg s
  let m := (sstebzRes sv cfg s).m
  sv.cupmtr cfg.acm_order m (restr (packedSize cfg.acm_order) t.ac_buf)
    (restr (cfg.acm_order - 1) t.tau_buf) (restr (m * cfg.acm_order) t.kltb_buf)

/-- Buffer state after the `cupmtr` call: the `num_eig_found` columns of
`kltb_buf` are overwritten in place with the back-transformed vectors. -/
def afterCupmtr (sv : Eigensolver) (cfg : Config) (s : KLTState) : KLTState :=
  let t := afterCstein sv cfg s
  let r := cupmtrRes sv cfg s
  let m := (sstebzRes sv cfg s).m
  { t with kltb_buf := over (m * cfg.acm_order) r.c t.kltb_buf }

/-- The zeroing the failure paths of `KLT::eigendecomp` perform before
throwing (klt.cc lines 349-350, 376-377, 387-388, 401-402):
`memset(eval_buf, 0, num_eig * sizeof(float))` and
`memset(kltb_buf, 0, num_eig * acm_order * sizeof(complex<float>))`.
No other buffer is cleared. -/
def zeroOutputs (cfg : Config) (s : KLTState) : KLTState :=
  { s with eval_buf := fun i => if i < cfg.num_eig then 0 else s.eval_buf i,
           kltb_buf := fun p => if p < cfg.num_eig * cfg.acm_order then 0 else s.kltb_buf p }

/-- Numeric failure signalled by `KLT::eigendecomp`, identifying the
failing step and its status code (the `std::runtime_error` messages at
klt.cc lines 352, 379, 390, 404). -/
inductive KLTError where
  | chptrdFail : ℤ → KLTError
  | sstebzFail : ℤ → KLTError
  | csteinFail : ℤ → KLTError
  | cupmtrFail : ℤ → KLTError
deriving DecidableEq

/-- `KLT::eigendecomp` (klt.cc lines 339-424): four delegated calls in
sequence; a non-zero status at any step zeroes `eval_buf[0..num_eig)`
and `kltb_buf[0..num_eig*acm_order)` and throws, identifying the step. -/
def eigendecomp (sv : Eigensolver) (cfg : Config) (s : KLTState) :
    Option KLTError × KLTState :=
  if (chptrdRes sv cfg s).info ≠ 0 then
    (some (KLTError.chptrdFail (chptrdRes sv cfg s).info),
     zeroOutputs cfg (afterChptrd sv cfg s))
  else if (sstebzRes sv cfg s).info ≠ 0 then
    (some (KLTError.sstebzFail (sstebzRes sv cfg s).info),
     zeroOutputs cfg (afterSstebz sv cfg s))
  else if (csteinRes sv cfg s).info ≠ 0 then
    (some (KLTError.csteinFail (csteinRes sv cfg s).info),
     zeroOutputs cfg (afterCstein sv cfg s))
  else if (cupmtrRes sv cfg s).info ≠ 0 then
    (some (KLTError.cupmtrFail (cupmtrRes sv cfg s).info),
     zeroOutputs cfg (afterCupmtr sv cfg s))
  else (none, afterCupmtr sv cfg s)

/-- Coefficient projection of `KLT::transform` (klt.cc lines 289-294):
`kltc_buf[cidx]` starts at `0` and accumulates
`in_buf[tidx] * conj(kltb_buf[cidx*acm_order + tidx])` for
`tidx < acm_order`. -/
def coeffOf (cfg : Config) (s : KLTState) (cidx : ℕ) : Cplx :=
  (List.range cfg.acm_order).foldl
    (fun acc tidx =>
      acc + cmul (s.in_buf tidx) (cconj (s.kltb_buf (cidx * cfg.acm_order + tidx)))) 0

/-- The two final loops of `KLT::transform` (klt.cc lines 288-300):
compute all `num_eig` coefficients from the unscaled basis, then scale
each basis column in place by its coefficient
(`kltb_buf[cidx*acm_order + tidx] *= kltc_buf[cidx]`). -/
def applyCoeffs (cfg : Config) (t : KLTState) : KLTState :=
  let kltc1 : ℕ → Cplx :=
    fun cidx => if cidx < cfg.num_eig then coeffOf cfg t cidx else t.kltc_buf cidx
  let kltb1 : ℕ → Cplx :=
    fun p => if p < cfg.num_eig * cfg.acm_order then
               cmul (t.kltb_buf p) (kltc1 (p / cfg.acm_order))
             else t.kltb_buf p
  { t with kltc_buf := kltc1, kltb_buf := kltb1 }

/-- `KLT::transform` in the shipped configuration (klt.cc lines
263-301 with `KLT_SUPPORT_WIN = 0`, `KLT_SUPPORT_EVALN = 0`):
autocorrelation, eigendecomposition (whose failure propagates,
skipping the remaining steps), coefficient projection, basis
weighting. -/
def transform (sv : Eigensolver) (cfg : Config) (s : KLTState) :
    Option KLTError × KLTState :=
  let r := eigendecomp sv cfg (acorr_matrix cfg s)
  match r.1 with
  | some err => (some err, r.2)
  | none => (none, applyCoeffs cfg r.2)

/-- Maximum-eigenvalue scan of the `KLT_SUPPORT_EVALN` block (klt.cc
lines 278-281): `max_eval` starts at `0.0f` and takes
`max(eval_buf[eidx], max_eval)` over `eidx < num_eig`. -/
def maxEval (cfg : Config) (eval : ℕ → ℚ) : ℚ :=
  (List.range cfg.num_eig).foldl (fun max_eval eidx => max (eval eidx) max_eval) 0

/-- Eigenvalue normalization of the `KLT_SUPPORT_EVALN` block (klt.cc
lines 282-285): `eval_buf[eidx] *= 1.0f / max_eval`. -/
def normEvals (cfg : Config) (eval : ℕ → ℚ) : ℕ → ℚ :=
  fun eidx => if eidx < cfg.num_eig then eval eidx * (1 / maxEval cfg eval)
              else eval eidx

/-- `KLT::transform` as compiled with `KLT_SUPPORT_EVALN = 1` (klt.cc
lines 263-301 including the lines 275-287 block): after a successful
eigendecomposition and before the coefficient projection, if
`eval_normalized` is set, divide the retained eigenvalues by their
maximum. -/
def transform_evaln (sv : Eigensolver) (cfg : Config) (eval_normalized : Bool)
    (s : KLTState) : Option KLTError × KLTState :=
  let r := eigendecomp sv cfg (acorr_matrix cfg s)
  match r.1 with
  | some err => (some err, r.2)
  | none =>
      let t := r.2
      let t2 := if eval_normalized then
                  { t with eval_buf := normEvals cfg t.eval_buf } else t
      (none, applyCoeffs cfg t2)

/-- The eleven buffers the shipped constructor allocates, in program
order (klt.cc lines 65-156; `win_buf` does not exist with
`KLT_SUPPORT_WIN = 0`). -/
inductive BufId where
  | in_buf | ac_buf | eval_buf | kltc_buf | kltb_buf
  | d_buf | e_buf | tau_buf | ib_buf | is_buf | if_buf
deriving DecidableEq

/-- The constructor's allocation sequence, each with the element count
reported in its failure message (klt.cc lines 67-156). -/
def allocSeq (cfg : Config) : List (BufId × ℕ) :=
  [ (BufId.in_buf, cfg.in_len),
    (BufId.ac_buf, packedSize cfg.acm_order),
    (BufId.eval_buf, cfg.acm_order),
    (BufId.kltc_buf, cfg.num_eig),
    (BufId.kltb_buf, cfg.acm_order * cfg.num_eig),
    (BufId.d_buf, cfg.acm_order),
    (BufId.e_buf, cfg.acm_order - 1),
    (BufId.tau_buf, cfg.acm_order - 1),
    (BufId.ib_buf, cfg.acm_order),
    (BufId.is_buf, cfg.acm_order),
    (BufId.if_buf, cfg.num_eig) ]

/-- Allocation failure as it reaches the caller of the constructor:
the failing buffer and requested size (the `"Failed to allocate ..."`
message), together with the buffers of the same construction attempt
that are still allocated at that moment.  The C++ constructor performs
no `free` before any `throw`, and C++ does not run `~KLT()` for an
object whose constructor throws, so nothing is released between the
failing `posix_memalign` and the caller observing the exception. -/
structure AllocError where
  buf : BufId
  size : ℕ
  allocated : List BufId
deriving DecidableEq

/-- Run the constructor's allocation sequence: `ok k` tells whether the
`k`-th `posix_memalign` call succeeds; `acc` accumulates the buffers
allocated so far.  The first failure aborts with an `AllocError`
carrying the buffers still held. -/
def runAllocs (ok : ℕ → Bool) : ℕ → List (BufId × ℕ) → List BufId →
    Except AllocError (List BufId)
  | _, [], acc => Except.ok acc
  | k, (b, sz) :: rest, acc =>
      if ok k then runAllocs ok (k + 1) rest (acc ++ [b])
      else Except.error ⟨b, sz, acc⟩

/-- The shipped `KLT::KLT` constructor's buffer-allocation behaviour
(klt.cc lines 27-173 with `KLT_SUPPORT_WIN = 0`,
`KLT_SUPPORT_EVALN = 0`), under an allocation oracle `ok`. -/
def construct (ok : ℕ → Bool) (cfg : Config) : Except AllocError (List BufId) :=
  runAllocs ok 0 (allocSeq cfg) []

/-- All-zero buffer state: a convenient base point for concrete runs. -/
def state0 : KLTState :=
  { in_buf := fun _ => 0, ac_buf := fun _ => 0, eval_buf := fun _ => 0,
    kltc_buf := fun _ => 0, kltb_buf := fun _ => 0,
    d_buf := fun _ => 0, e_buf := fun _ => 0, tau_buf := fun _ => 0,
    ib_buf := fun _ => 0, is_buf := fun _ => 0, if_buf := fun _ => 0 }

/-- Concrete solver whose `sstebz` step always reports status `1`
(a numeric failure at the selective eigenvalue search), the other
steps succeeding. -/
def sstebzFailSolver : Eigensolver :=
  { chptrd := fun _ ap => ⟨ap, fun _ => 0, fun _ => 0, fun _ => 0, 0⟩,
    sstebz := fun _ _ _ _ _ => ⟨0, 0, fun _ => 0, fun _ => 0, fun _ => 0, 1⟩,
    cstein := fun _ _ _ _ _ _ _ => ⟨fun _ => 0, fun _ => 0, 0⟩,
    cupmtr := fun _ _ _ _ c => ⟨c, 0⟩ }

/-- Concrete deterministic solver on which every step succeeds: the
eigenvalue search returns the requested `iu - il + 1` eigenvalues, all
equal to `3` (it is `SstebzConforming`), and inverse iteration returns
all-ones columns. -/
def plainSolver : Eigensolver :=
  { chptrd := fun _ ap => ⟨ap, fun _ => 0, fun _ => 0, fun _ => 0, 0⟩,
    sstebz := fun n il iu _ _ => ⟨iu + 1 - il, 1, fun _ => 3, fun _ => 1, fun _ => n, 0⟩,
    cstein := fun _ _ _ _ _ _ _ => ⟨fun _ => (1, 0), fun _ => 0, 0⟩,
    cupmtr := fun _ _ _ _ c => ⟨c, 0⟩ }

/-- Concrete non-conforming solver: all four steps succeed but the
eigenvalue search reports only `1` eigenvalue found regardless of the
requested index range. -/
def shortSolver : Eigensolver :=
  { chptrd := fun _ ap => ⟨ap, fun i => (ap i).1, fun _ => 0, fun _ => 0, 0⟩,
    sstebz := fun n _ _ d _ => ⟨1, 1, d, fun _ => 1, fun _ => n, 0⟩,
    cstein := fun _ _ _ _ _ _ _ => ⟨fun _ => (1, 0), fun _ => 0, 0⟩,
    cupmtr := fun _ _ _ _ c => ⟨c, 0⟩ }

/-- Configuration `in_len = 4`, `acm_order = 2`, `num_eig = 1` used for
concrete failure runs. -/
def cfgA : Config := ⟨4, 2, 1⟩

/-- Configuration `in_len = 1`, `acm_order = 1`, `num_eig = 1` used for
concrete end-to-end runs. -/
def cfgB : Config := ⟨1, 1, 1⟩

/-- Configuration `in_len = 2`, `acm_order = 2`, `num_eig = 2` used for
the found-count-mismatch run. -/
def cfgC : Config := ⟨2, 2, 2⟩

/-- Configuration `in_len = 4`, `acm_order = 3`, `num_eig = 2` used for
packing and index-range checks. -/
def cfgD : Config := ⟨4, 3, 2⟩

/-- State holding the constant input `1 + 0i` with residue `5 + 0i` in
the coefficient buffer, `3` in the eigenvalue buffer and `7 + 0i` in
the basis buffer (contents a previous call could have left). -/
def stateResidue : KLTState :=
  { state0 with in_buf := fun _ => (1, 0), eval_buf := fun _ => 3,
                kltc_buf := fun _ => (5, 0), kltb_buf := fun _ => (7, 0) }

/-- State holding the constant input `1 + 0i` over otherwise zero
buffers. -/
def stateX : KLTState := { state0 with in_buf := fun _ => (1, 0) }

/-- State holding the real ramp input `1, 2, 3, 4, ...` over otherwise
zero buffers. -/
def stateRamp : KLTState :=
  { state0 with in_buf := fun i => ((i : ℚ) + 1, 0) }

/-- Same input window as `stateX` but with garbage residue in the
autocorrelation, eigenvalue, coefficient and basis buffers. -/
def stateXnoisy : KLTState :=
  { stateX with ac_buf := fun _ => (7, 7), eval_buf := fun _ => 9,
                kltc_buf := fun _ => (3, 4), kltb_buf := fun _ => (2, 5) }

theorem foldl_add_eq_sum {M : Type} [AddCommMonoid M] (f : ℕ → M) :
    ∀ (n : ℕ) (a : M),
      (List.range n).foldl (fun acc t => acc + f t) a = a + ∑ t ∈ Finset.range n, f t
  | 0, a => by simp
  | n + 1, a => by
      rw [List.range_succ, List.foldl_append, foldl_add_eq_sum f n a,
        Finset.sum_range_succ]
      simp [add_assoc]

theorem acorr_eq_sum (in_len : ℕ) (inb : ℕ → Cplx) (aidx : ℕ) :
    acorr in_len inb aidx =
      ∑ t ∈ Finset.range (in_len - aidx), cmul (inb (t + aidx)) (cconj (inb t)) := by
  rw [acorr, foldl_add_eq_sum, zero_add]

theorem acorr_congr (in_len : ℕ) (f g : ℕ → Cplx)
    (h : ∀ i, i < in_len → f i = g i) (aidx : ℕ) :
    acorr in_len f aidx = acorr in_len g aidx := by
  rw [acorr_eq_sum, acorr_eq_sum]
  refine Finset.sum_congr rfl ?_
  intro t ht
  rw [Finset.mem_range] at ht
  rw [h t (by omega), h (t + aidx) (by omega)]

theorem copyRun_apply (ac : ℕ → Cplx) (aoidx : ℕ) :
    ∀ len, len ≤ aoidx → ∀ p,
      copyRun ac aoidx len p =
        if aoidx ≤ p ∧ p < aoidx + len then ac (p - aoidx) else ac p := by
  intro len
  induction len with
  | zero => intro _ p; rw [copyRun, if_neg (by omega)]
  | succ k ih =>
      intro h p
      have hk : k ≤ aoidx := by omega
      have hread : copyRun ac aoidx k k = ac k := by
        rw [ih hk k, if_neg (by omega)]
      by_cases hp : p = aoidx + k
      · simp only [copyRun, writeAt]
        rw [if_pos hp, hread, hp, if_pos (by omega)]
        congr 1
        omega
      · simp only [copyRun, writeAt]
        rw [if_neg hp, ih hk p]
        by_cases hc : aoidx ≤ p ∧ p < aoidx + k
        · rw [if_pos hc, if_pos (by omega)]
        · rw [if_neg hc, if_neg (by omega)]

theorem packCols_lt :
    ∀ cl aoidx ac p, cl ≤ aoidx → p < aoidx → packCols ac aoidx cl p = ac p := by
  intro cl
  induction cl with
  | zero => intro aoidx ac p _ _; rfl
  | succ k ih =>
      intro aoidx ac p h hp
      simp only [packCols]
      rw [ih (aoidx + (k + 1)) _ p (by omega) (by omega),
        copyRun_apply ac aoidx (k + 1) h p, if_neg (by omega)]

theorem segOff_shift (cl : ℕ) : ∀ j, segOff (cl + 1) (j + 1) = (cl + 1) + segOff cl j := by
  intro j
  induction j with
  | zero => simp [segOff]
  | succ i ih =>
      have h1 : segOff (cl + 1) (i + 1 + 1) = segOff (cl + 1) (i + 1) + ((cl + 1) - (i + 1)) := rfl
      have h2 : segOff cl (i + 1) = segOff cl i + (cl - i) := rfl
      rw [h1, ih, h2]
      omega

theorem packCols_seg :
    ∀ cl aoidx ac j r, cl ≤ aoidx → j < cl → r < cl - j →
      packCols ac aoidx cl (aoidx + segOff cl j + r) = ac r := by
  intro cl
  induction cl with
  | zero => intro _ _ j _ _ hj _; exact absurd hj (Nat.not_lt_zero j)
  | succ k ih =>
      intro aoidx ac j r h hj hr
      cases j with
      | zero =>
          have hpos : aoidx + segOff (k + 1) 0 + r = aoidx + r := by
            simp [segOff]
          simp only [packCols]
          rw [hpos, packCols_lt k (aoidx + (k + 1)) _ _ (by omega) (by omega),
            copyRun_apply ac aoidx (k + 1) h (aoidx + r), if_pos (by omega)]
          congr 1
          omega
      | succ i =>
          simp only [packCols]
          have hs : aoidx + segOff (k + 1) (i + 1) + r = (aoidx + (k + 1)) + segOff k i + r := by
            rw [segOff_shift]; omega
          rw [hs, ih (aoidx + (k + 1)) _ i r (by omega) (by omega) (by omega),
            copyRun_apply ac aoidx (k + 1) h r, if_neg (by omega)]

theorem colOff_eq_segOff (n : ℕ) : ∀ c, colOff n (c + 1) = n + segOff (n - 1) c := by
  intro c
  induction c with
  | zero => simp [colOff, segOff]
  | succ i ih =>
      have h1 : colOff n (i + 1 + 1) = colOff n (i + 1) + (n - (i + 1)) := rfl
      have h2 : segOff (n - 1) (i + 1) = segOff (n - 1) i + ((n - 1) - i) := rfl
      rw [h1, ih, h2]
      omega

theorem packedSize_succ (n : ℕ) : packedSize (n + 1) = (n + 1) + packedSize n := by
  unfold packedSize
  have h : (n + 1 + 1) * (n + 1) = (n + 1) * n + 2 * (n + 1) := by ring
  rw [h, Nat.add_mul_div_left _ _ (by norm_num : (0:ℕ) < 2)]
  omega

theorem totalLen_eq_packedSize : ∀ n, totalLen n = packedSize n := by
  intro n
  induction n with
  | zero => rfl
  | succ k ih =>
      have h1 : totalLen (k + 1) = (k + 1) + totalLen k := rfl
      rw [h1, ih, packedSize_succ]

theorem packCols_congr :
    ∀ cl aoidx ac1 ac2 p, cl ≤ aoidx → (∀ q, q < aoidx → ac1 q = ac2 q) →
      p < aoidx + totalLen cl → packCols ac1 aoidx cl p = packCols ac2 aoidx cl p := by
  intro cl
  induction cl with
  | zero =>
      intro aoidx ac1 ac2 p _ hag hp
      simp only [packCols]
      exact hag p (by simpa [totalLen] using hp)
  | succ k ih =>
      intro aoidx ac1 ac2 p h hag hp
      have hp' : p < (aoidx + (k + 1)) + totalLen k := by
        have h1 : totalLen (k + 1) = (k + 1) + totalLen k := rfl
        rw [h1] at hp
        omega
      simp only [packCols]
      refine ih (aoidx + (k + 1)) _ _ p (by omega) ?_ hp'
      intro q hq
      rw [copyRun_apply ac1 aoidx (k + 1) h q, copyRun_apply ac2 aoidx (k + 1) h q]
      by_cases hc : aoidx ≤ q ∧ q < aoidx + (k + 1)
      · rw [if_pos hc, if_pos hc]
        exact hag _ (by omega)
      · rw [if_neg hc, if_neg hc]
        exact hag _ (by omega)

theorem restr_over {α : Type} [Zero α] (k : ℕ) (f g : ℕ → α) :
    restr k (over k f g) = restr k f := by
  funext i
  by_cases h : i < k <;> simp [restr, over, h]

theorem restr_congr {α : Type} [Zero α] (k : ℕ) (f g : ℕ → α)
    (h : ∀ i, i < k → f i = g i) : restr k f = restr k g := by
  funext i
  by_cases hi : i < k
  · simpa [restr, hi] using h i hi
  · simp [restr, hi]

theorem packedSize_eq_add (n : ℕ) (hn : 0 < n) :
    packedSize n = n + totalLen (n - 1) := by
  cases n with
  | zero => exact absurd hn (by omega)
  | succ k =>
      rw [totalLen_eq_packedSize, packedSize_succ]
      simp

theorem acorr_matrix_lag (cfg : Config) (s : KLTState) (aidx : ℕ)
    (ha : aidx < cfg.acm_order) :
    (acorr_matrix cfg s).ac_buf aidx = acorr cfg.in_len s.in_buf aidx := by
  show packCols _ cfg.acm_order (cfg.acm_order - 1) aidx = _
  rw [packCols_lt (cfg.acm_order - 1) cfg.acm_order _ aidx (by omega) ha]
  simp [ha]

theorem idx_lt_mul {c t m n : ℕ} (hc : c < m) (ht : t < n) : c * n + t < m * n := by
  have h1 : c * n + t < (c + 1) * n := by
    have : (c + 1) * n = c * n + n := by ring
    omega
  have h2 : (c + 1) * n ≤ m * n := Nat.mul_le_mul_right n hc
  omega

theorem afterChptrd_eval_buf (sv : Eigensolver) (cfg : Config) (s : KLTState) :
    (afterChptrd sv cfg s).eval_buf = s.eval_buf := rfl

theorem afterChptrd_in_buf (sv : Eigensolver) (cfg : Config) (s : KLTState) :
    (afterChptrd sv cfg s).in_buf = s.in_buf := rfl

theorem afterSstebz_eval_buf (sv : Eigensolver) (cfg : Config) (s : KLTState) :
    (afterSstebz sv cfg s).eval_buf =
      over (sstebzRes sv cfg s).m (sstebzRes sv cfg s).w s.eval_buf := rfl

theorem afterSstebz_kltb_buf (sv : Eigensolver) (cfg : Config) (s : KLTState) :
    (afterSstebz sv cfg s).kltb_buf = s.kltb_buf := rfl

theorem afterCstein_kltb_buf (sv : Eigensolver) (cfg : Config) (s : KLTState) :
    (afterCstein sv cfg s).kltb_buf =
      over ((sstebzRes sv cfg s).m * cfg.acm_order) (csteinRes sv cfg s).z
        s.kltb_buf := rfl

theorem afterCupmtr_eval_buf (sv : Eigensolver) (cfg : Config) (s : KLTState) :
    (afterCupmtr sv cfg s).eval_buf =
      over (sstebzRes sv cfg s).m (sstebzRes sv cfg s).w s.eval_buf := rfl

theorem afterCupmtr_kltb_buf (sv : Eigensolver) (cfg : Config) (s : KLTState) :
    (afterCupmtr sv cfg s).kltb_buf =
      over ((sstebzRes sv cfg s).m * cfg.acm_order) (cupmtrRes sv cfg s).c
        (over ((sstebzRes sv cfg s).m * cfg.acm_order) (csteinRes sv cfg s).z
          s.kltb_buf) := rfl

theorem eigendecomp_in_buf (sv : Eigensolver) (cfg : Config) (s : KLTState) :
    (eigendecomp sv cfg s).2.in_buf = s.in_buf := by
  unfold eigendecomp
  repeat' split
  all_goals rfl

theorem eigendecomp_kltc_buf (sv : Eigensolver) (cfg : Config) (s : KLTState) :
    (eigendecomp sv cfg s).2.kltc_buf = s.kltc_buf := by
  unfold eigendecomp
  repeat' split
  all_goals rfl

theorem sstebzRes_eq (sv : Eigensolver) (cfg : Config) (s : KLTState) :
    sstebzRes sv cfg s =
      sv.sstebz cfg.acm_order (stebz_il cfg) (stebz_iu cfg)
        (restr cfg.acm_order (chptrdRes sv cfg s).d)
        (restr (cfg.acm_order - 1) (chptrdRes sv cfg s).e) := by
  show sv.sstebz cfg.acm_order (stebz_il cfg) (stebz_iu cfg)
      (restr cfg.acm_order (over cfg.acm_order (chptrdRes sv cfg s).d s.d_buf))
      (restr (cfg.acm_order - 1)
        (over (cfg.acm_order - 1) (chptrdRes sv cfg s).e s.e_buf)) = _
  rw [restr_over, restr_over]

theorem csteinRes_eq (sv : Eigensolver) (cfg : Config) (s : KLTState) :
    csteinRes sv cfg s =
      sv.cstein cfg.acm_order
        (restr cfg.acm_order (chptrdRes sv cfg s).d)
        (restr (cfg.acm_order - 1) (chptrdRes sv cfg s).e)
        (sstebzRes sv cfg s).m
        (restr (sstebzRes sv cfg s).m (sstebzRes sv cfg s).w)
        (restr (sstebzRes sv cfg s).m (sstebzRes sv cfg s).iblock)
        (restr (sstebzRes sv cfg s).nsplit (sstebzRes sv cfg s).isplit) := by
  show sv.cstein cfg.acm_order
      (restr cfg.acm_order (over cfg.acm_order (chptrdRes sv cfg s).d s.d_buf))
      (restr (cfg.acm_order - 1)
        (over (cfg.acm_order - 1) (chptrdRes sv cfg s).e s.e_buf))
      (sstebzRes sv cfg s).m
      (restr (sstebzRes sv cfg s).m
        (over (sstebzRes sv cfg s).m (sstebzRes sv cfg s).w s.eval_buf))
      (restr (sstebzRes sv cfg s).m
        (over (sstebzRes sv cfg s).m (sstebzRes sv cfg s).iblock s.ib_buf))
      (restr (sstebzRes sv cfg s).nsplit
        (over (sstebzRes sv cfg s).nsplit (sstebzRes sv cfg s).isplit s.is_buf)) = _
  rw [restr_over, restr_over, restr_over, restr_over, restr_over]

theorem cupmtrRes_eq (sv : Eigensolver) (cfg : Config) (s : KLTState) :
    cupmtrRes sv cfg s =
      sv.cupmtr cfg.acm_order (sstebzRes sv cfg s).m
        (restr (packedSize cfg.acm_order) (chptrdRes sv cfg s).ap)
        (restr (cfg.acm_order - 1) (chptrdRes sv cfg s).tau)
        (restr ((sstebzRes sv cfg s).m * cfg.acm_order) (csteinRes sv cfg s).z) := by
  show sv.cupmtr cfg.acm_order (sstebzRes sv cfg s).m
      (restr (packedSize cfg.acm_order)
        (over (packedSize cfg.acm_order) (chptrdRes sv cfg s).ap s.ac_buf))
      (restr (cfg.acm_order - 1)
        (over (cfg.acm_order - 1) (chptrdRes sv cfg s).tau s.tau_buf))
      (restr ((sstebzRes sv cfg s).m * cfg.acm_order)
        (over ((sstebzRes sv cfg s).m * cfg.acm_order) (csteinRes sv cfg s).z
          s.kltb_buf)) = _
  rw [restr_over, restr_over, restr_over]

theorem chptrdRes_congr (sv : Eigensolver) (cfg : Config) (s1 s2 : KLTState)
    (h : ∀ p, p < packedSize cfg.acm_order → s1.ac_buf p = s2.ac_buf p) :
    chptrdRes sv cfg s1 = chptrdRes sv cfg s2 := by
  unfold chptrdRes
  rw [restr_congr _ _ _ h]

theorem sstebzRes_congr (sv : Eigensolver) (cfg : Config) (s1 s2 : KLTState)
    (h : ∀ p, p < packedSize cfg.acm_order → s1.ac_buf p = s2.ac_buf p) :
    sstebzRes sv cfg s1 = sstebzRes sv cfg s2 := by
  rw [sstebzRes_eq, sstebzRes_eq, chptrdRes_congr sv cfg s1 s2 h]

theorem csteinRes_congr (sv : Eigensolver) (cfg : Config) (s1 s2 : KLTState)
    (h : ∀ p, p < packedSize cfg.acm_order → s1.ac_buf p = s2.ac_buf p) :
    csteinRes sv cfg s1 = csteinRes sv cfg s2 := by
  rw [csteinRes_eq, csteinRes_eq, chptrdRes_congr sv cfg s1 s2 h,
    sstebzRes_congr sv cfg s1 s2 h]

theorem cupmtrRes_congr (sv : Eigensolver) (cfg : Config) (s1 s2 : KLTState)
    (h : ∀ p, p < packedSize cfg.acm_order → s1.ac_buf p = s2.ac_buf p) :
    cupmtrRes sv cfg s1 = cupmtrRes sv cfg s2 := by
  rw [cupmtrRes_eq, cupmtrRes_eq, chptrdRes_congr sv cfg s1 s2 h,
    sstebzRes_congr sv cfg s1 s2 h, csteinRes_congr sv cfg s1 s2 h]

theorem eigendecomp_fst_congr (sv : Eigensolver) (cfg : Config) (s1 s2 : KLTState)
    (h : ∀ p, p < packedSize cfg.acm_order → s1.ac_buf p = s2.ac_buf p) :
    (eigendecomp sv cfg s1).1 = (eigendecomp sv cfg s2).1 := by
  have h1 := chptrdRes_congr sv cfg s1 s2 h
  have h2 := sstebzRes_congr sv cfg s1 s2 h
  have h3 := csteinRes_congr sv cfg s1 s2 h
  have h4 := cupmtrRes_congr sv cfg s1 s2 h
  unfold eigendecomp
  rw [h1, h2, h3, h4]
  by_cases c1 : (chptrdRes sv cfg s2).info ≠ 0
  · simp [c1]
  · by_cases c2 : (sstebzRes sv cfg s2).info ≠ 0
    · simp [c1, c2]
    · by_cases c3 : (csteinRes sv cfg s2).info ≠ 0
      · simp [c1, c2, c3]
      · by_cases c4 : (cupmtrRes sv cfg s2).info ≠ 0
        · simp [c1, c2, c3, c4]
        · simp [c1, c2, c3, c4]

theorem zeroOutputs_eval_buf (cfg : Config) (s : KLTState) (i : ℕ)
    (hi : i < cfg.num_eig) : (zeroOutputs cfg s).eval_buf i = 0 := by
  simp [zeroOutputs, hi]

theorem zeroOutputs_kltb_buf (cfg : Config) (s : KLTState) (p : ℕ)
    (hp : p < cfg.num_eig * cfg.acm_order) : (zeroOutputs cfg s).kltb_buf p = 0 := by
  simp [zeroOutputs, hp]

theorem sstebz_m_of_success (sv : Eigensolver) (cfg : Config) (s : KLTState)
    (hconf : SstebzConforming sv) (hnum : cfg.num_eig ≤ cfg.acm_order)
    (hpos : 1 ≤ cfg.num_eig) (hinfo : (sstebzRes sv cfg s).info = 0) :
    (sstebzRes sv cfg s).m = cfg.num_eig := by
  rw [sstebzRes_eq] at hinfo ⊢
  rw [hconf _ _ _ _ _ hinfo]
  unfold stebz_il stebz_iu
  omega

theorem eigendecomp_snd_congr (sv : Eigensolver) (cfg : Config) (s1 s2 : KLTState)
    (hconf : SstebzConforming sv) (hnum : cfg.num_eig ≤ cfg.acm_order)
    (hpos : 1 ≤ cfg.num_eig)
    (hac : ∀ p, p < packedSize cfg.acm_order → s1.ac_buf p = s2.ac_buf p) :
    (∀ i, i < cfg.num_eig →
       (eigendecomp sv cfg s1).2.eval_buf i = (eigendecomp sv cfg s2).2.eval_buf i) ∧
    (∀ p, p < cfg.num_eig * cfg.acm_order →
       (eigendecomp sv cfg s1).2.kltb_buf p = (eigendecomp sv cfg s2).2.kltb_buf p) := by
  have h1 := chptrdRes_congr sv cfg s1 s2 hac
  have h2 := sstebzRes_congr sv cfg s1 s2 hac
  have h3 := csteinRes_congr sv cfg s1 s2 hac
  have h4 := cupmtrRes_congr sv cfg s1 s2 hac
  by_cases c1 : (chptrdRes sv cfg s2).info ≠ 0
  · have e1 : eigendecomp sv cfg s1 =
        (some (KLTError.chptrdFail (chptrdRes sv cfg s1).info),
         zeroOutputs cfg (afterChptrd sv cfg s1)) := by
      unfold eigendecomp
      rw [h1, if_pos c1]
    have e2 : eigendecomp sv cfg s2 =
        (some (KLTError.chptrdFail (chptrdRes sv cfg s2).info),
         zeroOutputs cfg (afterChptrd sv cfg s2)) := by
      unfold eigendecomp
      rw [if_pos c1]
    rw [e1, e2]
    constructor
    · intro i hi
      rw [zeroOutputs_eval_buf _ _ _ hi, zeroOutputs_eval_buf _ _ _ hi]
    · intro p hp
      rw [zeroOutputs_kltb_buf _ _ _ hp, zeroOutputs_kltb_buf _ _ _ hp]
  · by_cases c2 : (sstebzRes sv cfg s2).info ≠ 0
    · have e1 : eigendecomp sv cfg s1 =
          (some (KLTError.sstebzFail (sstebzRes sv cfg s1).info),
           zeroOutputs cfg (afterSstebz sv cfg s1)) := by
        unfold eigendecomp
        rw [h1, h2, if_neg c1, if_pos c2]
      have e2 : eigendecomp sv cfg s2 =
          (some (KLTError.sstebzFail (sstebzRes sv cfg s2).info),
           zeroOutputs cfg (afterSstebz sv cfg s2)) := by
        unfold eigendecomp
        rw [if_neg c1, if_pos c2]
      rw [e1, e2]
      constructor
      · intro i hi
        rw [zeroOutputs_eval_buf _ _ _ hi, zeroOutputs_eval_buf _ _ _ hi]
      · intro p hp
        rw [zeroOutputs_kltb_buf _ _ _ hp, zeroOutputs_kltb_buf _ _ _ hp]
    · by_cases c3 : (csteinRes sv cfg s2).info ≠ 0
      · have e1 : eigendecomp sv cfg s1 =
            (some (KLTError.csteinFail (csteinRes sv cfg s1).info),
             zeroOutputs cfg (afterCstein sv cfg s1)) := by
          unfold eigendecomp
          rw [h1, h2, h3, if_neg c1, if_neg c2, if_pos c3]
        have e2 : eigendecomp sv cfg s2 =
            (some (KLTError.csteinFail (csteinRes sv cfg s2).info),
             zeroOutputs cfg (afterCstein sv cfg s2)) := by
          unfold eigendecomp
          rw [if_neg c1, if_neg c2, if_pos c3]
        rw [e1, e2]
        constructor
        · intro i hi
          rw [zeroOutputs_eval_buf _ _ _ hi, zeroOutputs_eval_buf _ _ _ hi]
        · intro p hp
          rw [zeroOutputs_kltb_buf _ _ _ hp, zeroOutputs_kltb_buf _ _ _ hp]
      · by_cases c4 : (cupmtrRes sv cfg s2).info ≠ 0
        · have e1 : eigendecomp sv cfg s1 =
              (some (KLTError.cupmtrFail (cupmtrRes sv cfg s1).info),
               zeroOutputs cfg (afterCupmtr sv cfg s1)) := by
            unfold eigendecomp
            rw [h1, h2, h3, h4, if_neg c1, if_neg c2, if_neg c3, if_pos c4]
          have e2 : eigendecomp sv cfg s2 =
              (some (KLTError.cupmtrFail (cupmtrRes sv cfg s2).info),
               zeroOutputs cfg (afterCupmtr sv cfg s2)) := by
            unfold eigendecomp
            rw [if_neg c1, if_neg c2, if_neg c3, if_pos c4]
          rw [e1, e2]
          constructor
          · intro i hi
            rw [zeroOutputs_eval_buf _ _ _ hi, zeroOutputs_eval_buf _ _ _ hi]
          · intro p hp
            rw [zeroOutputs_kltb_buf _ _ _ hp, zeroOutputs_kltb_buf _ _ _ hp]
        · have e1 : eigendecomp sv cfg s1 = (none, afterCupmtr sv cfg s1) := by
            unfold eigendecomp
            rw [h1, h2, h3, h4, if_neg c1, if_neg c2, if_neg c3, if_neg c4]
          have e2 : eigendecomp sv cfg s2 = (none, afterCupmtr sv cfg s2) := by
            unfold eigendecomp
            rw [if_neg c1, if_neg c2, if_neg c3, if_neg c4]
          rw [e1, e2]
          have hm2 : (sstebzRes sv cfg s2).m = cfg.num_eig :=
            sstebz_m_of_success sv cfg s2 hconf hnum hpos (by omega)
          have hm1 : (sstebzRes sv cfg s1).m = cfg.num_eig := by rw [h2]; exact hm2
          constructor
          · intro i hi
            rw [afterCupmtr_eval_buf, afterCupmtr_eval_buf, h2]
            simp only [over]
            rw [if_pos (by omega), if_pos (by omega)]
          · intro p hp
            rw [afterCupmtr_kltb_buf, afterCupmtr_kltb_buf, h2, h4]
            simp only [over]
            rw [if_pos (by rw [hm2]; omega), if_pos (by rw [hm2]; omega)]

theorem acorr_matrix_ac_congr (cfg : Config) (s1 s2 : KLTState)
    (hin : ∀ i, i < cfg.in_len → s1.in_buf i = s2.in_buf i) :
    ∀ p, p < packedSize cfg.acm_order →
      (acorr_matrix cfg s1).ac_buf p = (acorr_matrix cfg s2).ac_buf p := by
  intro p hp
  have hn : 0 < cfg.acm_order := by
    by_contra hz
    have : cfg.acm_order = 0 := by omega
    rw [this] at hp
    simp [packedSize] at hp
  show packCols _ cfg.acm_order (cfg.acm_order - 1) p =
    packCols _ cfg.acm_order (cfg.acm_order - 1) p
  refine packCols_congr (cfg.acm_order - 1) cfg.acm_order _ _ p (by omega) ?_ ?_
  · intro q hq
    simp only [hq, if_pos]
    exact acorr_congr cfg.in_len s1.in_buf s2.in_buf hin q
  · rw [← packedSize_eq_add cfg.acm_order hn]
    exact hp

theorem coeffOf_eq_sum (cfg : Config) (s : KLTState) (cidx : ℕ) :
    coeffOf cfg s cidx =
      ∑ t ∈ Finset.range cfg.acm_order,
        cmul (s.in_buf t) (cconj (s.kltb_buf (cidx * cfg.acm_order + t))) := by
  rw [coeffOf, foldl_add_eq_sum, zero_add]

theorem coeffOf_congr (cfg : Config) (t1 t2 : KLTState) (cidx : ℕ)
    (hc : cidx < cfg.num_eig)
    (hin : ∀ u, u < cfg.acm_order → t1.in_buf u = t2.in_buf u)
    (hb : ∀ p, p < cfg.num_eig * cfg.acm_order → t1.kltb_buf p = t2.kltb_buf p) :
    coeffOf cfg t1 cidx = coeffOf cfg t2 cidx := by
  rw [coeffOf_eq_sum, coeffOf_eq_sum]
  refine Finset.sum_congr rfl ?_
  intro u hu
  rw [Finset.mem_range] at hu
  rw [hin u hu, hb (cidx * cfg.acm_order + u) (idx_lt_mul hc hu)]

theorem cmul_comm (x y : Cplx) : cmul x y = cmul y x := by
  unfold cmul
  refine Prod.ext ?_ ?_ <;> simp <;> ring

theorem transform_of_fail (sv : Eigensolver) (cfg : Config) (s : KLTState)
    (err : KLTError) (h : (eigendecomp sv cfg (acorr_matrix cfg s)).1 = some err) :
    transform sv cfg s = (some err, (eigendecomp sv cfg (acorr_matrix cfg s)).2) := by
  simp only [transform]
  rw [h]

theorem transform_of_success (sv : Eigensolver) (cfg : Config) (s : KLTState)
    (h : (eigendecomp sv cfg (acorr_matrix cfg s)).1 = none) :
    transform sv cfg s =
      (none, applyCoeffs cfg (eigendecomp sv cfg (acorr_matrix cfg s)).2) := by
  simp only [transform]
  rw [h]

theorem applyCoeffs_eval_buf (cfg : Config) (t : KLTState) :
    (applyCoeffs cfg t).eval_buf = t.eval_buf := rfl

theorem applyCoeffs_in_buf (cfg : Config) (t : KLTState) :
    (applyCoeffs cfg t).in_buf = t.in_buf := rfl

theorem applyCoeffs_kltc_buf (cfg : Config) (t : KLTState) (cidx : ℕ)
    (hc : cidx < cfg.num_eig) :
    (applyCoeffs cfg t).kltc_buf cidx = coeffOf cfg t cidx := by
  simp [applyCoeffs, hc]

theorem applyCoeffs_kltb_buf (cfg : Config) (t : KLTState) (p : ℕ)
    (hp : p < cfg.num_eig * cfg.acm_order) :
    (applyCoeffs cfg t).kltb_buf p =
      cmul (t.kltb_buf p)
        (if p / cfg.acm_order < cfg.num_eig then coeffOf cfg t (p / cfg.acm_order)
         else t.kltc_buf (p / cfg.acm_order)) := by
  simp [applyCoeffs, hp]

theorem div_lt_num_eig (cfg : Config) (p : ℕ) (hp : p < cfg.num_eig * cfg.acm_order) :
    p / cfg.acm_order < cfg.num_eig := by
  have hn : 0 < cfg.acm_order := by
    by_contra hz
    have : cfg.acm_order = 0 := by omega
    rw [this, Nat.mul_zero] at hp
    omega
  exact Nat.div_lt_of_lt_mul (by rw [Nat.mul_comm]; exact hp)

theorem le_foldl_max (f : ℕ → ℚ) :
    ∀ (l : List ℕ) (a : ℚ), a ≤ l.foldl (fun mx i => max (f i) mx) a
  | [], a => le_refl a
  | x :: l, a => le_trans (le_max_right (f x) a) (le_foldl_max f l (max (f x) a))

theorem mem_le_foldl_max (f : ℕ → ℚ) :
    ∀ (l : List ℕ) (a : ℚ) (i : ℕ), i ∈ l →
      f i ≤ l.foldl (fun mx j => max (f j) mx) a := by
  intro l
  induction l with
  | nil => intro a i hi; simp at hi
  | cons x t ih =>
      intro a i hi
      rcases List.mem_cons.mp hi with h | h
      · subst h
        exact le_trans (le_max_left (f i) a) (le_foldl_max f t _)
      · exact ih _ i h

theorem foldl_max_le (f : ℕ → ℚ) :
    ∀ (l : List ℕ) (a c : ℚ), a ≤ c → (∀ i ∈ l, f i ≤ c) →
      l.foldl (fun mx j => max (f j) mx) a ≤ c := by
  intro l
  induction l with
  | nil => intro a c ha _; exact ha
  | cons x t ih =>
      intro a c ha hf
      refine ih _ c (max_le (hf x (by simp)) ha) ?_
      intro i hi
      exact hf i (by simp [hi])

theorem foldl_max_eq_init_or_mem (f : ℕ → ℚ) :
    ∀ (l : List ℕ) (a : ℚ),
      l.foldl (fun mx j => max (f j) mx) a = a ∨
        ∃ i ∈ l, l.foldl (fun mx j => max (f j) mx) a = f i := by
  intro l
  induction l with
  | nil => intro a; left; rfl
  | cons x t ih =>
      intro a
      rcases ih (max (f x) a) with h | ⟨i, hi, h⟩
      · rcases max_cases (f x) a with ⟨he, _⟩ | ⟨he, _⟩
        · right
          exact ⟨x, by simp, by rw [List.foldl_cons, h, he]⟩
        · left
          rw [List.foldl_cons, h, he]
      · right
        exact ⟨i, by simp [hi], by rw [List.foldl_cons, h]⟩

theorem foldl_max_congr (f g : ℕ → ℚ) :
    ∀ (l : List ℕ) (a : ℚ), (∀ i ∈ l, f i = g i) →
      l.foldl (fun mx j => max (f j) mx) a = l.foldl (fun mx j => max (g j) mx) a := by
  intro l
  induction l with
  | nil => intro a _; rfl
  | cons x t ih =>
      intro a h
      rw [List.foldl_cons, List.foldl_cons, h x (by simp),
        ih _ (fun i hi => h i (by simp [hi]))]

theorem maxEval_nonneg (cfg : Config) (f : ℕ → ℚ) : 0 ≤ maxEval cfg f :=
  le_foldl_max f (List.range cfg.num_eig) 0

theorem le_maxEval (cfg : Config) (f : ℕ → ℚ) (i : ℕ) (hi : i < cfg.num_eig) :
    f i ≤ maxEval cfg f :=
  mem_le_foldl_max f (List.range cfg.num_eig) 0 i (List.mem_range.mpr hi)

theorem maxEval_le (cfg : Config) (f : ℕ → ℚ) (c : ℚ) (h0 : 0 ≤ c)
    (hf : ∀ i, i < cfg.num_eig → f i ≤ c) : maxEval cfg f ≤ c :=
  foldl_max_le f (List.range cfg.num_eig) 0 c h0
    (fun i hi => hf i (List.mem_range.mp hi))

theorem maxEval_attained (cfg : Config) (f : ℕ → ℚ) (hpos : 0 < maxEval cfg f) :
    ∃ i, i < cfg.num_eig ∧ f i = maxEval cfg f := by
  rcases foldl_max_eq_init_or_mem f (List.range cfg.num_eig) 0 with h | ⟨i, hi, h⟩
  · exfalso
    rw [maxEval] at hpos
    rw [h] at hpos
    exact lt_irrefl 0 hpos
  · exact ⟨i, List.mem_range.mp hi, h.symm⟩

theorem maxEval_congr (cfg : Config) (f g : ℕ → ℚ)
    (h : ∀ i, i < cfg.num_eig → f i = g i) : maxEval cfg f = maxEval cfg g :=
  foldl_max_congr f g (List.range cfg.num_eig) 0
    (fun i hi => h i (List.mem_range.mp hi))

theorem eigendecomp_of_success (sv : Eigensolver) (cfg : Config) (s : KLTState)
    (h : (eigendecomp sv cfg s).1 = none) :
    eigendecomp sv cfg s = (none, afterCupmtr sv cfg s) := by
  by_cases c1 : (chptrdRes sv cfg s).info ≠ 0
  · exfalso
    unfold eigendecomp at h
    rw [if_pos c1] at h
    simp at h
  by_cases c2 : (sstebzRes sv cfg s).info ≠ 0
  · exfalso
    unfold eigendecomp at h
    rw [if_neg c1, if_pos c2] at h
    simp at h
  by_cases c3 : (csteinRes sv cfg s).info ≠ 0
  · exfalso
    unfold eigendecomp at h
    rw [if_neg c1, if_neg c2, if_pos c3] at h
    simp at h
  by_cases c4 : (cupmtrRes sv cfg s).info ≠ 0
  · exfalso
    unfold eigendecomp at h
    rw [if_neg c1, if_neg c2, if_neg c3, if_pos c4] at h
    simp at h
  unfold eigendecomp
  rw [if_neg c1, if_neg c2, if_neg c3, if_neg c4]

theorem eigendecomp_sstebz_success (sv : Eigensolver) (cfg : Config) (s : KLTState)
    (h : (eigendecomp sv cfg s).1 = none) : (sstebzRes sv cfg s).info = 0 := by
  by_cases c1 : (chptrdRes sv cfg s).info ≠ 0
  · exfalso
    unfold eigendecomp at h
    rw [if_pos c1] at h
    simp at h
  by_cases c2 : (sstebzRes sv cfg s).info ≠ 0
  · exfalso
    unfold eigendecomp at h
    rw [if_neg c1, if_pos c2] at h
    simp at h
  omega

theorem eigendecomp_of_infos (sv : Eigensolver) (cfg : Config) (s : KLTState)
    (h1 : (chptrdRes sv cfg s).info = 0) (h2 : (sstebzRes sv cfg s).info = 0)
    (h3 : (csteinRes sv cfg s).info = 0) (h4 : (cupmtrRes sv cfg s).info = 0) :
    eigendecomp sv cfg s = (none, afterCupmtr sv cfg s) := by
  unfold eigendecomp
  rw [if_neg (by simp [h1]), if_neg (by simp [h2]), if_neg (by simp [h3]),
    if_neg (by simp [h4])]

theorem transform_evaln_of_success (sv : Eigensolver) (cfg : Config) (b : Bool)
    (s : KLTState) (h : (eigendecomp sv cfg (acorr_matrix cfg s)).1 = none) :
    transform_evaln sv cfg b s =
      (none, applyCoeffs cfg
        (if b then
          { (eigendecomp sv cfg (acorr_matrix cfg s)).2 with
              eval_buf := normEvals cfg (eigendecomp sv cfg (acorr_matrix cfg s)).2.eval_buf }
         else (eigendecomp sv cfg (acorr_matrix cfg s)).2)) := by
  simp only [transform_evaln]
  rw [h]

theorem acorr_matrix_in_buf (cfg : Config) (s : KLTState) :
    (acorr_matrix cfg s).in_buf = s.in_buf := rfl

theorem acorr_matrix_kltb_buf (cfg : Config) (s : KLTState) :
    (acorr_matrix cfg s).kltb_buf = s.kltb_buf := rfl

theorem plainSolver_conforming : SstebzConforming plainSolver := by
  intro n il iu d e _
  rfl

theorem runAllocs_fail_at (ok : ℕ → Bool) :
    ∀ (l : List (BufId × ℕ)) (i : ℕ) (acc : List BufId) (k : ℕ) (hk : k < l.length),
      (∀ j, j < k → ok (i + j) = true) → ok (i + k) = false →
      runAllocs ok i l acc =
        Except.error ⟨(l.get ⟨k, hk⟩).1, (l.get ⟨k, hk⟩).2,
          acc ++ (l.take k).map Prod.fst⟩ := by
  intro l
  induction l with
  | nil => intro i acc k hk; simp at hk
  | cons hd tl ih =>
      intro i acc k hk hpre hfail
      rcases hd with ⟨b, sz⟩
      cases k with
      | zero =>
          have h0 : ok i = false := by simpa using hfail
          simp only [runAllocs, h0]
          simp
      | succ r =>
          have h0 : ok i = true := by simpa using hpre 0 (by omega)
          have hk' : r < tl.length := by simpa using hk
          have hpre' : ∀ j, j < r → ok (i + 1 + j) = true := by
            intro j hj
            have := hpre (j + 1) (by omega)
            have harg : i + (j + 1) = i + 1 + j := by omega
            rw [harg] at this
            exact this
          have hfail' : ok (i + 1 + r) = false := by
            have harg : i + (r + 1) = i + 1 + r := by omega
            rw [harg] at hfail
            exact hfail
          simp only [runAllocs, h0, if_true]
          rw [ih (i + 1) (acc ++ [b]) r hk' hpre' hfail']
          simp [List.take_succ_cons]

/-- C2: for every input buffer and every lag `a` in `[0, acmOrder)`, the
autocorrelation estimator stores at position `a` of `ac_buf` exactly the
sum over `t` in `[0, inputLength - a)` of `input[t+a] * conj(input[t])`,
with no division by the sample count and no tapering. -/
theorem C2_acorr_biased_estimator (cfg : Config) (s : KLTState) (a : ℕ)
    (ha : a < cfg.acm_order) :
    (acorr_matrix cfg s).ac_buf a =
      ∑ t ∈ Finset.range (cfg.in_len - a),
        cmul (s.in_buf (t + a)) (cconj (s.in_buf t)) := by
  rw [acorr_matrix_lag cfg s a ha, acorr_eq_sum]

/-- Witness for C2 at `cfg = (4, 3, 2)`, lag `1`, ramp input. -/
theorem C2_acorr_biased_estimator_witness :
    (acorr_matrix cfgD stateRamp).ac_buf 1 =
      ∑ t ∈ Finset.range (cfgD.in_len - 1),
        cmul (stateRamp.in_buf (t + 1)) (cconj (stateRamp.in_buf t)) :=
  C2_acorr_biased_estimator cfgD stateRamp 1 (by decide)

/-- C3: the selective eigenvalue search is invoked with exactly the index
range `il = acm_order - num_eig + 1`, `iu = acm_order`: that range has
exactly `num_eig` indices, and they are exactly the top `num_eig` indices
of the `acm_order`-dimensional spectrum; under the search routine's
contract a successful search therefore produces exactly `num_eig`
eigenvalues and none outside that index range. -/
theorem C3_top_index_range (cfg : Config) (h1 : 1 ≤ cfg.num_eig)
    (h2 : cfg.num_eig ≤ cfg.acm_order) :
    (Finset.Icc (stebz_il cfg) (stebz_iu cfg)).card = cfg.num_eig ∧
    (∀ k, k ∈ Finset.Icc (stebz_il cfg) (stebz_iu cfg) ↔
       (cfg.acm_order - cfg.num_eig < k ∧ k ≤ cfg.acm_order)) ∧
    (∀ sv : Eigensolver, SstebzConforming sv → ∀ s : KLTState,
       (sstebzRes sv cfg s).info = 0 → (sstebzRes sv cfg s).m = cfg.num_eig) := by
  refine ⟨?_, ?_, ?_⟩
  · rw [Nat.card_Icc]
    unfold stebz_il stebz_iu
    omega
  · intro k
    rw [Finset.mem_Icc]
    unfold stebz_il stebz_iu
    omega
  · intro sv hconf s hinfo
    exact sstebz_m_of_success sv cfg s hconf h2 h1 hinfo

/-- Witness for C3 at `cfg = (4, 3, 2)`. -/
theorem C3_top_index_range_witness :
    (Finset.Icc (stebz_il cfgD) (stebz_iu cfgD)).card = cfgD.num_eig ∧
    (∀ k, k ∈ Finset.Icc (stebz_il cfgD) (stebz_iu cfgD) ↔
       (cfgD.acm_order - cfgD.num_eig < k ∧ k ≤ cfgD.acm_order)) ∧
    (∀ sv : Eigensolver, SstebzConforming sv → ∀ s : KLTState,
       (sstebzRes sv cfgD s).info = 0 → (sstebzRes sv cfgD s).m = cfgD.num_eig) :=
  C3_top_index_range cfgD (by decide) (by decide)

/-- C5: after the autocorrelation step, the packed lower-triangular
column-major Toeplitz buffer holds, at the packed slot of matrix entry
`(i, j)` with `j ≥ i` (column `i`, row `j`), exactly the lag-`(j-i)`
autocorrelation value, independent of which packed column holds it. -/
theorem C5_toeplitz_packing (cfg : Config) (s : KLTState) (i j : ℕ)
    (hij : i ≤ j) (hj : j < cfg.acm_order) :
    (acorr_matrix cfg s).ac_buf (colOff cfg.acm_order i + (j - i)) =
      acorr cfg.in_len s.in_buf (j - i) := by
  cases i with
  | zero =>
      have h0 : colOff cfg.acm_order 0 + (j - 0) = j := by simp [colOff]
      rw [h0]
      simpa using acorr_matrix_lag cfg s j hj
  | succ c =>
      rw [colOff_eq_segOff]
      show packCols
          (fun aidx => if aidx < cfg.acm_order then acorr cfg.in_len s.in_buf aidx
                       else s.ac_buf aidx)
          cfg.acm_order (cfg.acm_order - 1)
          (cfg.acm_order + segOff (cfg.acm_order - 1) c + (j - (c + 1))) = _
      rw [packCols_seg (cfg.acm_order - 1) cfg.acm_order _ c (j - (c + 1))
        (by omega) (by omega) (by omega)]
      rw [if_pos (by omega)]

/-- Witness for C5 at `cfg = (4, 3, 2)`, entry `(1, 2)` (column 1,
row 2), ramp input. -/
theorem C5_toeplitz_packing_witness :
    (acorr_matrix cfgD stateRamp).ac_buf (colOff cfgD.acm_order 1 + (2 - 1)) =
      acorr cfgD.in_len stateRamp.in_buf (2 - 1) :=
  C5_toeplitz_packing cfgD stateRamp 1 2 (by decide) (by decide)

/-- C9: when all four eigendecomposition steps report status `0` but the
eigenvalue search's found count differs from `num_eig`, `transform` does
not fail (the mismatch is at most logged in debug builds, which the
shipped `KLT_DEBUG = NONE` build compiles out), the inverse-iteration
and back-transformation steps operate on the found count, and basis
columns at or beyond the found count are left untouched by the
decomposition. -/
theorem C9_found_count_mismatch_not_fatal (sv : Eigensolver) (cfg : Config)
    (s : KLTState)
    (h1 : (chptrdRes sv cfg (acorr_matrix cfg s)).info = 0)
    (h2 : (sstebzRes sv cfg (acorr_matrix cfg s)).info = 0)
    (hm : (sstebzRes sv cfg (acorr_matrix cfg s)).m ≠ cfg.num_eig)
    (h3 : (csteinRes sv cfg (acorr_matrix cfg s)).info = 0)
    (h4 : (cupmtrRes sv cfg (acorr_matrix cfg s)).info = 0) :
    (transform sv cfg s).1 = none ∧
    (∀ p, (sstebzRes sv cfg (acorr_matrix cfg s)).m * cfg.acm_order ≤ p →
       (eigendecomp sv cfg (acorr_matrix cfg s)).2.kltb_buf p = s.kltb_buf p) := by
  have hE := eigendecomp_of_infos sv cfg (acorr_matrix cfg s) h1 h2 h3 h4
  constructor
  · rw [transform_of_success sv cfg s (by rw [hE])]
  · intro p hp
    rw [hE]
    show (afterCupmtr sv cfg (acorr_matrix cfg s)).kltb_buf p = s.kltb_buf p
    rw [afterCupmtr_kltb_buf]
    simp only [over]
    rw [if_neg (by omega), if_neg (by omega)]
    rw [acorr_matrix_kltb_buf]

/-- Witness for C9: `shortSolver` reports `1` eigenvalue found for
`cfg = (2, 2, 2)`; the transform succeeds and basis entries from
position `1 * 2` on keep their residue. -/
theorem C9_found_count_mismatch_not_fatal_witness :
    (transform shortSolver cfgC stateResidue).1 = none ∧
    (∀ p, (sstebzRes shortSolver cfgC (acorr_matrix cfgC stateResidue)).m *
            cfgC.acm_order ≤ p →
       (eigendecomp shortSolver cfgC (acorr_matrix cfgC stateResidue)).2.kltb_buf p =
         stateResidue.kltb_buf p) :=
  C9_found_count_mismatch_not_fatal shortSolver cfgC stateResidue
    (by decide) (by decide) (by decide) (by decide) (by decide)

/-- C10: in the shipped configuration (`KLT_SUPPORT_WIN = 0`,
`KLT_SUPPORT_EVALN = 0`), `transform` never modifies `in_buf`: no
analysis window is applied and the input buffer is only read, so the
caller's samples are unchanged across a call (successful or failed),
for every solver, configuration and prior state. -/
theorem C10_in_buf_never_modified (sv : Eigensolver) (cfg : Config) (s : KLTState) :
    (transform sv cfg s).2.in_buf = s.in_buf := by
  cases hE : (eigendecomp sv cfg (acorr_matrix cfg s)).1 with
  | some err =>
      rw [transform_of_fail sv cfg s err hE]
      show (eigendecomp sv cfg (acorr_matrix cfg s)).2.in_buf = s.in_buf
      rw [eigendecomp_in_buf, acorr_matrix_in_buf]
  | none =>
      rw [transform_of_success sv cfg s hE]
      show (applyCoeffs cfg (eigendecomp sv cfg (acorr_matrix cfg s)).2).in_buf = s.in_buf
      rw [applyCoeffs_in_buf, eigendecomp_in_buf, acorr_matrix_in_buf]

/-- C1 (code bug): the code's own documentation (klt.hh lines 51-52,
klt.cc lines 260-261 and 336-337) promises that on a numeric failure
all of `eval_buf`, `kltc_buf` and `kltb_buf` are set to `0.0f`, but the
failure paths of `KLT::eigendecomp` memset only `eval_buf` and
`kltb_buf` (klt.cc lines 349-350, 376-377, 387-388, 401-402): this run
fails at the `sstebz` step, `eval_buf[0..num_eig)` and the whole basis
buffer read zero, yet `kltc_buf` still holds its residue `5 + 0i`. -/
theorem C1_kltc_not_zeroed_on_failure :
    (transform sstebzFailSolver cfgA stateResidue).1 = some (KLTError.sstebzFail 1) ∧
    (transform sstebzFailSolver cfgA stateResidue).2.eval_buf 0 = 0 ∧
    (transform sstebzFailSolver cfgA stateResidue).2.kltb_buf 0 = 0 ∧
    (transform sstebzFailSolver cfgA stateResidue).2.kltb_buf 1 = 0 ∧
    (transform sstebzFailSolver cfgA stateResidue).2.kltc_buf 0 = ((5 : ℚ), (0 : ℚ)) ∧
    ((5 : ℚ), (0 : ℚ)) ≠ ((0 : ℚ), (0 : ℚ)) := by
  decide

/-- Counterexample for C6: with `cfg = (4, 2, 1)` and the second
allocation (`ac_buf`, size 3) failing, construction fails identifying
`ac_buf` and size 3, but `in_buf` — allocated earlier in the same
attempt — is still allocated when the error reaches the caller (the
constructor frees nothing before throwing and the destructor does not
run for a partially constructed object), so the claimed release of
already-allocated buffers does not happen. -/
theorem C6_counterexample_leak :
    construct (fun k => k != 1) cfgA =
      Except.error ⟨BufId.ac_buf, 3, [BufId.in_buf]⟩ ∧
    ([BufId.in_buf] : List BufId) ≠ [] :=
  ⟨rfl, by decide⟩

/-- C6 (amended): if the `k`-th allocation of the construction attempt
fails after the first `k` succeeded, construction fails with an error
identifying the `k`-th buffer and its requested size, and the `k`
buffers already allocated by that same attempt remain allocated (are
NOT released) when the error propagates to the caller. -/
theorem C6_alloc_failure_reporting (cfg : Config) (ok : ℕ → Bool) (k : ℕ)
    (hk : k < (allocSeq cfg).length)
    (hpre : ∀ j, j < k → ok j = true) (hfail : ok k = false) :
    construct ok cfg =
      Except.error ⟨((allocSeq cfg).get ⟨k, hk⟩).1, ((allocSeq cfg).get ⟨k, hk⟩).2,
        ((allocSeq cfg).take k).map Prod.fst⟩ := by
  unfold construct
  have h := runAllocs_fail_at ok (allocSeq cfg) 0 [] k hk
    (by simpa using hpre) (by simpa using hfail)
  simpa using h

/-- Witness for the amended C6: first allocation failing on
`cfg = (4, 2, 1)` reports `in_buf` with size 4 and leaves nothing
allocated. -/
theorem C6_alloc_failure_reporting_witness :
    construct (fun _ => false) cfgA = Except.error ⟨BufId.in_buf, 4, []⟩ :=
  C6_alloc_failure_reporting cfgA (fun _ => false) 0 (by decide)
    (fun j hj => absurd hj (Nat.not_lt_zero j)) rfl

/-- C4: after a successful `transform`, for every retained index
`i < num_eig`, coefficient `i` equals the sum over `t < acm_order` of
`input[t] * conj(eigenvector_i[t])` against the pre-weighting
eigenvector (only the first `acm_order` input samples participate), and
the exported basis entry `(i, t)` equals that coefficient times the
pre-weighting eigenvector entry — using the coefficients computed
before any column was scaled. -/
theorem C4_projection_and_weighting (sv : Eigensolver) (cfg : Config) (s : KLTState)
    (i t : ℕ) (hi : i < cfg.num_eig) (ht : t < cfg.acm_order)
    (hsucc : (transform sv cfg s).1 = none) :
    ((transform sv cfg s).2.kltc_buf i =
       ∑ u ∈ Finset.range cfg.acm_order,
         cmul (s.in_buf u)
           (cconj ((eigendecomp sv cfg (acorr_matrix cfg s)).2.kltb_buf
             (i * cfg.acm_order + u)))) ∧
    ((transform sv cfg s).2.kltb_buf (i * cfg.acm_order + t) =
       cmul ((transform sv cfg s).2.kltc_buf i)
         ((eigendecomp sv cfg (acorr_matrix cfg s)).2.kltb_buf
           (i * cfg.acm_order + t))) := by
  cases hE : (eigendecomp sv cfg (acorr_matrix cfg s)).1 with
  | some err =>
      rw [transform_of_fail sv cfg s err hE] at hsucc
      simp at hsucc
  | none =>
      have hT := transform_of_success sv cfg s hE
      have hin : (eigendecomp sv cfg (acorr_matrix cfg s)).2.in_buf = s.in_buf := by
        rw [eigendecomp_in_buf, acorr_matrix_in_buf]
      have hcoeff : (transform sv cfg s).2.kltc_buf i =
          coeffOf cfg (eigendecomp sv cfg (acorr_matrix cfg s)).2 i := by
        rw [hT]
        exact applyCoeffs_kltc_buf cfg _ i hi
      have hdiv : (i * cfg.acm_order + t) / cfg.acm_order = i := by
        rw [Nat.mul_comm, Nat.mul_add_div (by omega), Nat.div_eq_of_lt ht]
        omega
      constructor
      · rw [hcoeff, coeffOf_eq_sum, hin]
      · rw [hcoeff]
        rw [hT]
        show (applyCoeffs cfg (eigendecomp sv cfg (acorr_matrix cfg s)).2).kltb_buf
            (i * cfg.acm_order + t) = _
        rw [applyCoeffs_kltb_buf cfg _ _ (idx_lt_mul hi ht), hdiv, if_pos hi,
          cmul_comm]

/-- Witness for C4: successful run of `plainSolver` on `cfg = (1, 1, 1)`
with input `1 + 0i`, at `i = 0`, `t = 0`. -/
theorem C4_projection_and_weighting_witness :
    ((transform plainSolver cfgB stateX).2.kltc_buf 0 =
       ∑ u ∈ Finset.range cfgB.acm_order,
         cmul (stateX.in_buf u)
           (cconj ((eigendecomp plainSolver cfgB (acorr_matrix cfgB stateX)).2.kltb_buf
             (0 * cfgB.acm_order + u)))) ∧
    ((transform plainSolver cfgB stateX).2.kltb_buf (0 * cfgB.acm_order + 0) =
       cmul ((transform plainSolver cfgB stateX).2.kltc_buf 0)
         ((eigendecomp plainSolver cfgB (acorr_matrix cfgB stateX)).2.kltb_buf
           (0 * cfgB.acm_order + 0))) :=
  C4_projection_and_weighting plainSolver cfgB stateX 0 0
    (by decide) (by decide) (by decide)

/-- Counterexample for C7: two `transform` calls with identical
configuration `(4, 2, 1)` and identical input contents (`1 + 0i`
everywhere), on states differing only in what earlier calls left in the
buffers (`stateResidue` holds `5 + 0i` coefficient residue, `stateX` is
clean); both calls fail at the eigenvalue search, and they produce
different coefficient outputs — the claim's "identical eigenvalue,
coefficient, and basis outputs, regardless of any earlier calls" fails
for the coefficient buffer on failing calls because `kltc_buf` is never
overwritten (nor zeroed) on the failure path. -/
theorem C7_history_affects_failed_call_coeffs :
    stateResidue.in_buf = stateX.in_buf ∧
    (transform sstebzFailSolver cfgA stateResidue).1 =
      (transform sstebzFailSolver cfgA stateX).1 ∧
    (transform sstebzFailSolver cfgA stateResidue).1 = some (KLTError.sstebzFail 1) ∧
    (transform sstebzFailSolver cfgA stateResidue).2.kltc_buf 0 = ((5 : ℚ), (0 : ℚ)) ∧
    (transform sstebzFailSolver cfgA stateX).2.kltc_buf 0 = ((0 : ℚ), (0 : ℚ)) ∧
    (transform sstebzFailSolver cfgA stateResidue).2.kltc_buf 0 ≠
      (transform sstebzFailSolver cfgA stateX).2.kltc_buf 0 := by
  refine ⟨rfl, ?_, ?_, ?_, ?_, ?_⟩ <;> decide

/-- C7 (amended): for a deterministic solver satisfying the `sstebz`
index-range contract and a valid configuration, two `transform` calls
with identical configuration and identical input-buffer contents return
the same success/failure status and identical eigenvalue and basis
outputs regardless of any earlier calls (every step overwrites the
autocorrelation and scratch regions it reads); the coefficient outputs
are also identical whenever the calls succeed — but on a failing call
the coefficient buffer keeps its prior contents, so it is excluded from
the unconditional part. -/
theorem C7_amended_determinism (sv : Eigensolver) (cfg : Config) (s1 s2 : KLTState)
    (hconf : SstebzConforming sv) (hpos : 1 ≤ cfg.num_eig)
    (hnum : cfg.num_eig ≤ cfg.acm_order) (hlen : cfg.acm_order ≤ cfg.in_len)
    (hin : ∀ i, i < cfg.in_len → s1.in_buf i = s2.in_buf i) :
    (transform sv cfg s1).1 = (transform sv cfg s2).1 ∧
    (∀ i, i < cfg.num_eig →
       (transform sv cfg s1).2.eval_buf i = (transform sv cfg s2).2.eval_buf i) ∧
    (∀ p, p < cfg.num_eig * cfg.acm_order →
       (transform sv cfg s1).2.kltb_buf p = (transform sv cfg s2).2.kltb_buf p) ∧
    ((transform sv cfg s1).1 = none →
       ∀ i, i < cfg.num_eig →
         (transform sv cfg s1).2.kltc_buf i = (transform sv cfg s2).2.kltc_buf i) := by
  have hac := acorr_matrix_ac_congr cfg s1 s2 hin
  have hfst := eigendecomp_fst_congr sv cfg (acorr_matrix cfg s1) (acorr_matrix cfg s2) hac
  have hsnd := eigendecomp_snd_congr sv cfg (acorr_matrix cfg s1) (acorr_matrix cfg s2)
    hconf hnum hpos hac
  have hin1 : (eigendecomp sv cfg (acorr_matrix cfg s1)).2.in_buf = s1.in_buf := by
    rw [eigendecomp_in_buf, acorr_matrix_in_buf]
  have hin2 : (eigendecomp sv cfg (acorr_matrix cfg s2)).2.in_buf = s2.in_buf := by
    rw [eigendecomp_in_buf, acorr_matrix_in_buf]
  cases hE : (eigendecomp sv cfg (acorr_matrix cfg s1)).1 with
  | some err =>
      have hE2 : (eigendecomp sv cfg (acorr_matrix cfg s2)).1 = some err := by
        rw [← hfst, hE]
      rw [transform_of_fail sv cfg s1 err hE, transform_of_fail sv cfg s2 err hE2]
      refine ⟨rfl, ?_, ?_, ?_⟩
      · intro i hi
        show (eigendecomp sv cfg (acorr_matrix cfg s1)).2.eval_buf i =
          (eigendecomp sv cfg (acorr_matrix cfg s2)).2.eval_buf i
        exact hsnd.1 i hi
      · intro p hp
        show (eigendecomp sv cfg (acorr_matrix cfg s1)).2.kltb_buf p =
          (eigendecomp sv cfg (acorr_matrix cfg s2)).2.kltb_buf p
        exact hsnd.2 p hp
      · intro hnone
        simp at hnone
  | none =>
      have hE2 : (eigendecomp sv cfg (acorr_matrix cfg s2)).1 = none := by
        rw [← hfst, hE]
      rw [transform_of_success sv cfg s1 hE, transform_of_success sv cfg s2 hE2]
      have hbody : ∀ c, c < cfg.num_eig →
          coeffOf cfg (eigendecomp sv cfg (acorr_matrix cfg s1)).2 c =
            coeffOf cfg (eigendecomp sv cfg (acorr_matrix cfg s2)).2 c := by
        intro c hc
        refine coeffOf_congr cfg _ _ c hc ?_ hsnd.2
        intro u hu
        rw [hin1, hin2]
        exact hin u (by omega)
      refine ⟨rfl, ?_, ?_, ?_⟩
      · intro i hi
        show (applyCoeffs cfg (eigendecomp sv cfg (acorr_matrix cfg s1)).2).eval_buf i =
          (applyCoeffs cfg (eigendecomp sv cfg (acorr_matrix cfg s2)).2).eval_buf i
        rw [applyCoeffs_eval_buf, applyCoeffs_eval_buf]
        exact hsnd.1 i hi
      · intro p hp
        show (applyCoeffs cfg (eigendecomp sv cfg (acorr_matrix cfg s1)).2).kltb_buf p =
          (applyCoeffs cfg (eigendecomp sv cfg (acorr_matrix cfg s2)).2).kltb_buf p
        rw [applyCoeffs_kltb_buf cfg _ p hp, applyCoeffs_kltb_buf cfg _ p hp]
        have hd := div_lt_num_eig cfg p hp
        rw [if_pos hd, if_pos hd, hsnd.2 p hp, hbody _ hd]
      · intro _ i hi
        show (applyCoeffs cfg (eigendecomp sv cfg (acorr_matrix cfg s1)).2).kltc_buf i =
          (applyCoeffs cfg (eigendecomp sv cfg (acorr_matrix cfg s2)).2).kltc_buf i
        rw [applyCoeffs_kltc_buf cfg _ i hi, applyCoeffs_kltc_buf cfg _ i hi]
        exact hbody i hi

/-- Witness for the amended C7: `plainSolver` on `cfg = (1, 1, 1)` with
the same input `1 + 0i` over a clean state and over a state with
garbage in every other buffer. -/
theorem C7_amended_determinism_witness :
    (transform plainSolver cfgB stateX).1 = (transform plainSolver cfgB stateXnoisy).1 ∧
    (∀ i, i < cfgB.num_eig →
       (transform plainSolver cfgB stateX).2.eval_buf i =
         (transform plainSolver cfgB stateXnoisy).2.eval_buf i) ∧
    (∀ p, p < cfgB.num_eig * cfgB.acm_order →
       (transform plainSolver cfgB stateX).2.kltb_buf p =
         (transform plainSolver cfgB stateXnoisy).2.kltb_buf p) ∧
    ((transform plainSolver cfgB stateX).1 = none →
       ∀ i, i < cfgB.num_eig →
         (transform plainSolver cfgB stateX).2.kltc_buf i =
           (transform plainSolver cfgB stateXnoisy).2.kltc_buf i) :=
  C7_amended_determinism plainSolver cfgB stateX stateXnoisy plainSolver_conforming
    (by decide) (by decide) (by decide) (fun i _ => rfl)

/-- C8: with eigenvalue normalization enabled (the `KLT_SUPPORT_EVALN`
block), after a successful decomposition whose retained maximum is
positive, each retained eigenvalue is divided by the maximum retained
eigenvalue, the maximum retained eigenvalue becomes exactly `1`, the
relative order of the eigenvalues is unchanged, and the basis and
coefficient buffers are unaffected by the normalization. -/
theorem C8_eval_normalization (sv : Eigensolver) (cfg : Config) (s : KLTState)
    (hsucc : (eigendecomp sv cfg (acorr_matrix cfg s)).1 = none)
    (hpos : 0 < maxEval cfg (eigendecomp sv cfg (acorr_matrix cfg s)).2.eval_buf) :
    (∀ i, i < cfg.num_eig →
       (transform_evaln sv cfg true s).2.eval_buf i =
         (eigendecomp sv cfg (acorr_matrix cfg s)).2.eval_buf i /
           maxEval cfg (eigendecomp sv cfg (acorr_matrix cfg s)).2.eval_buf) ∧
    maxEval cfg (transform_evaln sv cfg true s).2.eval_buf = 1 ∧
    (∀ i j, i < cfg.num_eig → j < cfg.num_eig →
       ((transform_evaln sv cfg true s).2.eval_buf i ≤
          (transform_evaln sv cfg true s).2.eval_buf j ↔
        (eigendecomp sv cfg (acorr_matrix cfg s)).2.eval_buf i ≤
          (eigendecomp sv cfg (acorr_matrix cfg s)).2.eval_buf j)) ∧
    (∀ p, (transform_evaln sv cfg true s).2.kltb_buf p =
       (transform_evaln sv cfg false s).2.kltb_buf p) ∧
    (∀ c, (transform_evaln sv cfg true s).2.kltc_buf c =
       (transform_evaln sv cfg false s).2.kltc_buf c) := by
  have hTtrue := transform_evaln_of_success sv cfg true s hsucc
  have hTfalse := transform_evaln_of_success sv cfg false s hsucc
  have hEval : (transform_evaln sv cfg true s).2.eval_buf =
      normEvals cfg (eigendecomp sv cfg (acorr_matrix cfg s)).2.eval_buf := by
    rw [hTtrue]
    rfl
  have hnorm : ∀ i, i < cfg.num_eig →
      normEvals cfg (eigendecomp sv cfg (acorr_matrix cfg s)).2.eval_buf i =
        (eigendecomp sv cfg (acorr_matrix cfg s)).2.eval_buf i /
          maxEval cfg (eigendecomp sv cfg (acorr_matrix cfg s)).2.eval_buf := by
    intro i hi
    unfold normEvals
    rw [if_pos hi, mul_one_div]
  refine ⟨?_, ?_, ?_, ?_, ?_⟩
  · intro i hi
    rw [hEval]
    exact hnorm i hi
  · rw [hEval]
    have hcong : maxEval cfg
        (normEvals cfg (eigendecomp sv cfg (acorr_matrix cfg s)).2.eval_buf) =
        maxEval cfg (fun i =>
          (eigendecomp sv cfg (acorr_matrix cfg s)).2.eval_buf i /
            maxEval cfg (eigendecomp sv cfg (acorr_matrix cfg s)).2.eval_buf) :=
      maxEval_congr cfg _ _ hnorm
    rw [hcong]
    obtain ⟨i0, hi0, hEi0⟩ := maxEval_attained cfg _ hpos
    apply le_antisymm
    · refine maxEval_le cfg _ 1 zero_le_one ?_
      intro i hi
      exact div_le_one_of_le₀ (le_maxEval cfg _ i hi) (le_of_lt hpos)
    · have h1 : (eigendecomp sv cfg (acorr_matrix cfg s)).2.eval_buf i0 /
          maxEval cfg (eigendecomp sv cfg (acorr_matrix cfg s)).2.eval_buf = 1 := by
        rw [hEi0, div_self (ne_of_gt hpos)]
      exact le_trans (le_of_eq h1.symm) (le_maxEval cfg (fun i =>
        (eigendecomp sv cfg (acorr_matrix cfg s)).2.eval_buf i /
          maxEval cfg (eigendecomp sv cfg (acorr_matrix cfg s)).2.eval_buf) i0 hi0)
  · intro i j hi hj
    rw [hEval, hnorm i hi, hnorm j hj]
    rw [div_le_div_iff_of_pos_right hpos]
  · intro p
    rw [hTtrue, hTfalse]
    rfl
  · intro c
    rw [hTtrue, hTfalse]
    rfl

theorem plainSolver_maxEval_pos :
    0 < maxEval cfgB (eigendecomp plainSolver cfgB (acorr_matrix cfgB stateX)).2.eval_buf := by
  have h : maxEval cfgB (eigendecomp plainSolver cfgB (acorr_matrix cfgB stateX)).2.eval_buf
      = max 3 0 := rfl
  rw [h]
  exact lt_of_lt_of_le (by norm_num) (le_max_left 3 0)

/-- Witness for C8: `plainSolver` on `cfg = (1, 1, 1)` with input
`1 + 0i`; the single retained eigenvalue is `3 > 0`. -/
theorem C8_eval_normalization_witness :
    (∀ i, i < cfgB.num_eig →
       (transform_evaln plainSolver cfgB true stateX).2.eval_buf i =
         (eigendecomp plainSolver cfgB (acorr_matrix cfgB stateX)).2.eval_buf i /
           maxEval cfgB (eigendecomp plainSolver cfgB (acorr_matrix cfgB stateX)).2.eval_buf) ∧
    maxEval cfgB (transform_evaln plainSolver cfgB true stateX).2.eval_buf = 1 ∧
    (∀ i j, i < cfgB.num_eig → j < cfgB.num_eig →
       ((transform_evaln plainSolver cfgB true stateX).2.eval_buf i ≤
          (transform_evaln plainSolver cfgB true stateX).2.eval_buf j ↔
        (eigendecomp plainSolver cfgB (acorr_matrix cfgB stateX)).2.eval_buf i ≤
          (eigendecomp plainSolver cfgB (acorr_matrix cfgB stateX)).2.eval_buf j)) ∧
    (∀ p, (transform_evaln plainSolver cfgB true stateX).2.kltb_buf p =
       (transform_evaln plainSolver cfgB false stateX).2.kltb_buf p) ∧
    (∀ c, (transform_evaln plainSolver cfgB true stateX).2.kltc_buf c =
       (transform_evaln plainSolver cfgB false stateX).2.kltc_buf c) :=
  C8_eval_normalization plainSolver cfgB stateX (by decide) plainSolver_maxEval_pos
